import Mathlib

/-!
Verification of the psx-card-reader binary decoder.

The Python sources `card_reader.py` and `ui.py` are shallowly embedded here.
Byte buffers (Python `bytes`) are modelled as total functions `Nat → Nat`
returning the byte at each index (with the convention that claims quantify
over buffers whose values are `< 256` where byte-ness matters), and slices
`data[a:b]` become explicit lists of the bytes in `[a, b)`.  Fallible Python
code — `bytes.decode("shift_jis")` raises `UnicodeDecodeError` on malformed
input — is modelled with `Option`.
-/

set_option maxHeartbeats 1000000
set_option maxRecDepth 100000

namespace PsxCardReader

/-- CARD_SIZE from card_reader.py: 128 KiB raw memory card file size. -/
def CARD_SIZE : Nat := 128 * 1024

/-- BLOCK_SIZE from card_reader.py: 8 KiB per block (16 blocks total). -/
def BLOCK_SIZE : Nat := 8 * 1024

/-- FRAME_SIZE from card_reader.py: 128 bytes per frame (64 frames per block). -/
def FRAME_SIZE : Nat := 128

/-- FIRST from card_reader.py: allocation state of a first-or-only block of a file. -/
def FIRST : Nat := 0x51

/-- The Python slice `d[a:b]` of a byte buffer modelled as a function. -/
def slice (d : Nat → Nat) (a b : Nat) : List Nat :=
  (List.range (b - a)).map fun j => d (a + j)

/-- read_block from card_reader.py: the subarray of data holding block `i`. -/
def read_block (d : Nat → Nat) (i : Nat) : Nat → Nat :=
  fun j => d (i * BLOCK_SIZE + j)

/-- Python's `int.from_bytes(bs, "little")`. -/
def intFromBytesLE : List Nat → Nat
  | [] => 0
  | b :: rest => b + 256 * intFromBytesLE rest

/-- Modelled from the spec: the repository calls Python's standard-library
`bytes.decode("shift_jis")` (CPython `Modules/cjkcodecs/_codecs_jp.c`), which
is outside the repository.  A byte `< 0x80` decodes to the same ASCII code
point; a byte in `[0xA1, 0xDF]` decodes to the halfwidth-katakana code point
`0xFEC0 + b`; a byte in `[0x81, 0x9F] ∪ [0xE0, 0xEA]` is the lead byte of a
double-byte JIS X 0208 sequence; everything else is a decoding error.  The
JIS X 0208 pair table (several thousand entries) is embedded here only on the
pairs this development exercises; all pairs listed are genuine table entries,
and all single bytes treated as errors are errors in the real codec. -/
def sjisPair (b1 b2 : Nat) : Option Char :=
  if b1 = 0x81 && b2 = 0x40 then some (Char.ofNat 0x3000)
  else if b1 = 0x82 && b2 = 0xA0 then some (Char.ofNat 0x3042)
  else if b1 = 0x83 && b2 = 0x41 then some (Char.ofNat 0x30A2)
  else none

/-- Whether a byte is a lead byte of a double-byte sequence in Python's
strict shift_jis codec. -/
def sjisIsLead (b : Nat) : Bool :=
  (0x81 ≤ b && b ≤ 0x9F) || (0xE0 ≤ b && b ≤ 0xEA)

/-- Modelled from the spec: Python's strict `bytes.decode("shift_jis")`
(standard library, outside the repository).  `none` models the
`UnicodeDecodeError` raised on malformed or truncated input. -/
def sjisDecode : List Nat → Option (List Char)
  | [] => some []
  | b :: rest =>
    if b < 0x80 then (sjisDecode rest).map (fun cs => Char.ofNat b :: cs)
    else if 0xA1 ≤ b && b ≤ 0xDF then
      (sjisDecode rest).map (fun cs => Char.ofNat (0xFEC0 + b) :: cs)
    else if sjisIsLead b then
      match rest with
      | [] => none
      | b2 :: rest2 =>
        match sjisPair b b2 with
        | none => none
        | some c => (sjisDecode rest2).map (fun cs => c :: cs)
    else none

/-- The null character, `"\x00"` in the Python sources. -/
def nullChar : Char := Char.ofNat 0

/-- Python's `str.strip("\x00")`: remove null characters from both ends. -/
def stripNulls (cs : List Char) : List Char :=
  (((cs.dropWhile (fun c => c = nullChar)).reverse.dropWhile
      (fun c => c = nullChar)).reverse)

/-- DirectoryFrame from card_reader.py: a container for directory
information.  `file_name` is `Option` because the Python dataclass defaults
it to `None`; strings are modelled as `List Char`. -/
structure DirectoryFrame where
  state : Nat
  file_size : Nat := 0
  pointer : Nat := 0
  file_name : Option (List Char) := none
deriving DecidableEq

/-- The body of the loop in parse_header from card_reader.py, decoding the
128-byte directory frame at byte offset `i` of the header block.  `none`
models the `UnicodeDecodeError` that `data[i + 10 : i + 31].decode("shift_jis")`
raises on a malformed file name. -/
def parseFrame (d : Nat → Nat) (i : Nat) : Option DirectoryFrame :=
  let st := intFromBytesLE (slice d i (i + 4))
  if st = FIRST then
    match sjisDecode (slice d (i + 10) (i + 31)) with
    | none => none
    | some cs =>
      some { state := st
             file_size := intFromBytesLE (slice d (i + 4) (i + 7))
             pointer := d (i + 8)
             file_name := some (stripNulls cs) }
  else
    some { state := st }

/-- The loop of parse_header from card_reader.py over a list of frame
offsets, accumulating the decoded entries in order; a decoding failure in
any frame aborts the whole parse, as the Python exception would. -/
def parse_header_aux (d : Nat → Nat) : List Nat → Option (List DirectoryFrame)
  | [] => some []
  | i :: rest =>
    match parseFrame d i, parse_header_aux d rest with
    | some f, some fs => some (f :: fs)
    | _, _ => none

/-- parse_header from card_reader.py: iterate over the frame offsets
`range(FRAME_SIZE, 16 * FRAME_SIZE, FRAME_SIZE) = [128, 256, …, 1920]`. -/
def parse_header (d : Nat → Nat) : Option (List DirectoryFrame) :=
  parse_header_aux d (List.range' FRAME_SIZE 15 FRAME_SIZE)

/-- get_title from card_reader.py: decode `block[4:68]` of data block
`i + 1` with shift_jis and strip nulls; `none` models the propagated
`UnicodeDecodeError`. -/
def get_title (data : Nat → Nat) (i : Nat) : Option (List Char) :=
  (sjisDecode (slice (read_block data (i + 1)) 4 68)).map stripNulls

/-- The palette-entry conversion in get_icon from ui.py (loop body at lines
101–103): 16-bit packed color with low byte `lo` and high byte `hi` to an
RGB8 triple. -/
def convertColor (lo hi : Nat) : Nat × Nat × Nat :=
  ((lo &&& 0x1F) <<< 3,
   ((hi &&& 0x3) <<< 6) ||| ((lo &&& 0xE0) >>> 2),
   (hi &&& 0x7C) <<< 1)

/-- The raw 16-bit CLUT palette read by get_icon in ui.py: `block[96:128]`. -/
def icon_palette_bytes (block : Nat → Nat) : List Nat :=
  slice block 96 128

/-- Entry `k` of `new_palette` built by get_icon in ui.py: the conversion of
`palette[2k]` (low byte) and `palette[2k+1]` (high byte). -/
def new_palette (block : Nat → Nat) (k : Nat) : Nat × Nat × Nat :=
  convertColor ((icon_palette_bytes block).getD (2 * k) 0)
    ((icon_palette_bytes block).getD (2 * k + 1) 0)

/-- The `frames` list built by get_icon in ui.py: the first raw bitmap
`block[128:256]` always, `block[256:384]` when `icon_type >= 0x12`, and
additionally `block[384:512]` when `icon_type >= 0x13`. -/
def get_icon_frames (block : Nat → Nat) : List (List Nat) :=
  let icon_type := block 2
  [slice block 128 256] ++
    (if 0x12 ≤ icon_type then
      [slice block 256 384] ++
        (if 0x13 ≤ icon_type then [slice block 384 512] else [])
    else [])

/-- set_pixel from ui.py: write the RGB triple `c` for pixel `(x, y)` into a
flat row-major image buffer, each pixel taking 3 bytes at offset
`(y*16 + x)*3`. -/
def set_pixel (img : List Nat) (x y : Nat) (c : Nat × Nat × Nat) : List Nat :=
  ((img.set ((y * 16 + x) * 3) c.1).set
      ((y * 16 + x) * 3 + 1) c.2.1).set
    ((y * 16 + x) * 3 + 2) c.2.2

/-- One iteration of the inner `x` loop of get_icon in ui.py (with
`x = 2*k`): the byte `frame[y*8 + k]` supplies the left pixel from its low
nibble (`& 0xF`) and the right pixel from its high nibble (`>> 4`). -/
def draw_pair (pal : List (Nat × Nat × Nat)) (frame : List Nat) (y : Nat)
    (img : List Nat) (k : Nat) : List Nat :=
  set_pixel
    (set_pixel img (2 * k) y (pal.getD (frame.getD (y * 8 + k) 0 &&& 0xF) (0, 0, 0)))
    (2 * k + 1) y (pal.getD (frame.getD (y * 8 + k) 0 >>> 4) (0, 0, 0))

/-- The inner `x in range(0, 16, 2)` loop of get_icon in ui.py for row `y`. -/
def draw_row (pal : List (Nat × Nat × Nat)) (frame : List Nat)
    (img : List Nat) (y : Nat) : List Nat :=
  (List.range 8).foldl (draw_pair pal frame y) img

/-- The per-frame rendering loop of get_icon in ui.py: a fresh
`[0, 0, 0] * 16 * 16` buffer filled row by row. -/
def draw_frame (pal : List (Nat × Nat × Nat)) (frame : List Nat) : List Nat :=
  (List.range 16).foldl (draw_row pal frame) (List.replicate 768 0)

/-- The sum of `file_size` over the entries of a parsed directory whose
state is `FIRST` (0x51); the measure used by the block-accounting claims. -/
def allocSum (l : List DirectoryFrame) : Nat :=
  ((l.filter fun e => e.state == FIRST).map fun e => e.file_size).sum

/-- The all-zero byte buffer (an all-free card image). -/
def allZero : Nat → Nat := fun _ => 0

/-- The directory parsed from an all-zero header block: 15 entries with
state 0 and every other field defaulted. -/
def zeroEntries : List DirectoryFrame := List.replicate 15 { state := 0 }

/-- A header block whose slot-1 frame has state 0x51 and a file name region
starting with the byte 0x80, which is not decodable as shift_jis. -/
def c1block : Nat → Nat := fun o =>
  if o = 128 then 0x51 else if o = 138 then 0x80 else 0

/-- A card image whose data block 1 carries the undecodable byte 0x80 at
the start of its 64-byte title region (card offset 8192 + 4). -/
def c1card : Nat → Nat := fun o => if o = 8196 then 0x80 else 0

/-- The palette-entry layout exactly as the spec's words place it: 16
two-byte entries starting at data-block offset 0x20.  Declared only to be
compared with `new_palette`, which is embedded from the code. -/
def spec_palette_entry (block : Nat → Nat) (k : Nat) : Nat × Nat × Nat :=
  convertColor (block (0x20 + 2 * k)) (block (0x20 + 2 * k + 1))

/-- A data block that is zero everywhere except byte 0x60, which holds
0x1F; it distinguishes a palette read at 0x60 from one read at 0x20. -/
def c2block : Nat → Nat := fun o => if o = 96 then 0x1F else 0

/-- A card image whose slot-1 directory frame has state 0x51 and the
maximal 3-byte file size 0xFFFFFF. -/
def c3card : Nat → Nat := fun i =>
  if i = 128 then 0x51 else if 132 ≤ i ∧ i ≤ 134 then 0xFF else 0

/-- The directory parsed from `c3card`: one allocated entry of size
16777215 followed by 14 state-0 entries. -/
def c3out : List DirectoryFrame :=
  { state := 0x51, file_size := 16777215, pointer := 0, file_name := some [] }
    :: List.replicate 14 { state := 0 }

/-- A buffer placing the value 1 in the card-header frame (bytes 0–127)
and 0 everywhere else; it agrees with `allZero` on bytes 128–2047. -/
def c10block : Nat → Nat := fun o => if o < 128 then 1 else 0

/-- What the nibble-packed bitmap decode claims about the rendered buffer
`l` at pixel pair `(y, k)` (columns 2k and 2k+1 of row y): the source byte
`frame[y*8 + k]` supplies the left pixel from its low nibble and the right
pixel from its high nibble, each pixel being the 3 palette RGB bytes laid
out row-major at offsets `(y*16 + x)*3`. -/
def pairSpec (pal : List (Nat × Nat × Nat)) (frame : List Nat)
    (y k : Nat) (l : List Nat) : Prop :=
  l.getD ((y * 16 + 2 * k) * 3) 0 =
      (pal.getD (frame.getD (y * 8 + k) 0 % 16) (0, 0, 0)).1 ∧
  l.getD ((y * 16 + 2 * k) * 3 + 1) 0 =
      (pal.getD (frame.getD (y * 8 + k) 0 % 16) (0, 0, 0)).2.1 ∧
  l.getD ((y * 16 + 2 * k) * 3 + 2) 0 =
      (pal.getD (frame.getD (y * 8 + k) 0 % 16) (0, 0, 0)).2.2 ∧
  l.getD ((y * 16 + (2 * k + 1)) * 3) 0 =
      (pal.getD (frame.getD (y * 8 + k) 0 / 16) (0, 0, 0)).1 ∧
  l.getD ((y * 16 + (2 * k + 1)) * 3 + 1) 0 =
      (pal.getD (frame.getD (y * 8 + k) 0 / 16) (0, 0, 0)).2.1 ∧
  l.getD ((y * 16 + (2 * k + 1)) * 3 + 2) 0 =
      (pal.getD (frame.getD (y * 8 + k) 0 / 16) (0, 0, 0)).2.2

/-- A concrete 16-entry palette with distinct leading entries, used to
witness the bitmap-decode theorem. -/
def c9pal : List (Nat × Nat × Nat) :=
  [(1, 2, 3), (4, 5, 6), (7, 8, 9)] ++ List.replicate 13 (0, 0, 0)

/-- A concrete raw bitmap whose every byte is 0x21 (low nibble 1, high
nibble 2). -/
def c9frame : List Nat := List.replicate 128 0x21

/-- Modelled from the spec: the per-character inverse of the stdlib
shift_jis codec, on the fragment embedded in `sjisPair`: code points below
0x80 encode as themselves, halfwidth katakana (U+FF61–U+FF9F) as the single
byte `c - 0xFEC0`, and the double-byte fragment characters as their
`sjisPair` byte pairs; everything else is outside the embedded fragment. -/
def sjisEncodeChar (c : Char) : Option (List Nat) :=
  if c.toNat < 0x80 then some [c.toNat]
  else if 0xFF61 ≤ c.toNat && c.toNat ≤ 0xFF9F then some [c.toNat - 0xFEC0]
  else if c = Char.ofNat 0x3000 then some [0x81, 0x40]
  else if c = Char.ofNat 0x3042 then some [0x82, 0xA0]
  else if c = Char.ofNat 0x30A2 then some [0x83, 0x41]
  else none

/-- Modelled from the spec: `str.encode("shift_jis")` on the embedded
codec fragment — the concatenation of the per-character encodings. -/
def sjisEncode : List Char → Option (List Nat)
  | [] => some []
  | c :: cs =>
    match sjisEncodeChar c, sjisEncode cs with
    | some b, some bs => some (b ++ bs)
    | _, _ => none

/-- The synthetic 128-byte directory frame of the round-trip claim, laid
out at offset 0 of a buffer: 4-byte little-endian state 0x51, the size `S`
in little-endian at bytes 0x04–0x06, and the file-name bytes `bs` padded
with nulls in the 21 bytes at offset 0x0A. -/
def synthFrame (S : Nat) (bs : List Nat) : Nat → Nat := fun off =>
  if off = 0 then 0x51
  else if off = 4 then S % 256
  else if off = 5 then S / 256 % 256
  else if off = 6 then S / 65536 % 256
  else if 10 ≤ off ∧ off < 31 then bs.getD (off - 10) 0
  else 0

end PsxCardReader

namespace PsxCardReader

end PsxCardReader

namespace PsxCardReader

/-- A successful parse of a list of frame offsets yields one entry per
offset, in order, each produced by `parseFrame` at its offset. -/
theorem parse_header_aux_eq_some {d : Nat → Nat} (l : List Nat)
    (out : List DirectoryFrame) (h : parse_header_aux d l = some out) :
    out.length = l.length ∧
      ∀ j (hj : j < l.length) (hj' : j < out.length),
        parseFrame d (l.get ⟨j, hj⟩) = some (out.get ⟨j, hj'⟩) := by
  induction l generalizing out with
  | nil =>
    simp only [parse_header_aux, Option.some.injEq] at h
    subst h
    exact ⟨rfl, fun j hj => absurd hj (by simp at hj)⟩
  | cons i rest ih =>
    cases hf : parseFrame d i with
    | none =>
      simp only [parse_header_aux, hf] at h
      exact Option.noConfusion h
    | some f =>
      cases hr : parse_header_aux d rest with
      | none =>
        simp only [parse_header_aux, hf, hr] at h
        exact Option.noConfusion h
      | some fs =>
        simp only [parse_header_aux, hf, hr, Option.some.injEq] at h
        subst h
        obtain ⟨hlen, hget⟩ := ih fs hr
        refine ⟨by simp [hlen], ?_⟩
        intro j hj hj'
        cases j with
        | zero => simpa using hf
        | succ j =>
          simpa using hget j (by simpa using hj) (by simpa using hj')

/-- A frame-level decode failure at any listed offset aborts the whole
parse, as the uncaught Python exception would. -/
theorem parse_header_aux_eq_none {d : Nat → Nat} (l : List Nat) (i : Nat)
    (hmem : i ∈ l) (hf : parseFrame d i = none) :
    parse_header_aux d l = none := by
  induction l with
  | nil => simp at hmem
  | cons a rest ih =>
    rcases List.mem_cons.mp hmem with rfl | hmem'
    · simp [parse_header_aux, hf]
    · have hrest := ih hmem'
      cases ha : parseFrame d a <;> simp [parse_header_aux, ha, hrest]

/-- Slices of buffers that agree on the sliced range are equal. -/
theorem slice_congr {d₁ d₂ : Nat → Nat} {a b : Nat}
    (h : ∀ o, a ≤ o → o < b → d₁ o = d₂ o) : slice d₁ a b = slice d₂ a b := by
  unfold slice
  apply List.map_congr_left
  intro j hj
  have hjlt : j < b - a := List.mem_range.mp hj
  exact h (a + j) (by omega) (by omega)

/-- `parseFrame` reads only the 128 bytes of its own frame. -/
theorem parseFrame_congr {d₁ d₂ : Nat → Nat} {i : Nat}
    (h : ∀ o, o < FRAME_SIZE → d₁ (i + o) = d₂ (i + o)) :
    parseFrame d₁ i = parseFrame d₂ i := by
  have hin : ∀ o, i ≤ o → o < i + FRAME_SIZE → d₁ o = d₂ o := by
    intro o ho1 ho2
    have := h (o - i) (by simp only [FRAME_SIZE] at ho2 ⊢; omega)
    rwa [Nat.add_sub_cancel' ho1] at this
  have h4 : slice d₁ i (i + 4) = slice d₂ i (i + 4) :=
    slice_congr fun o ho1 ho2 =>
      hin o ho1 (by simp only [FRAME_SIZE]; omega)
  have h47 : slice d₁ (i + 4) (i + 7) = slice d₂ (i + 4) (i + 7) :=
    slice_congr fun o ho1 ho2 =>
      hin o (by omega) (by simp only [FRAME_SIZE]; omega)
  have h10 : slice d₁ (i + 10) (i + 31) = slice d₂ (i + 10) (i + 31) :=
    slice_congr fun o ho1 ho2 =>
      hin o (by omega) (by simp only [FRAME_SIZE]; omega)
  have h8 : d₁ (i + 8) = d₂ (i + 8) := h 8 (by simp [FRAME_SIZE])
  simp only [parseFrame, h4, h47, h10, h8]

/-- Whole-parse congruence from frame-level congruence. -/
theorem parse_header_aux_congr {d₁ d₂ : Nat → Nat} (l : List Nat)
    (h : ∀ i ∈ l, parseFrame d₁ i = parseFrame d₂ i) :
    parse_header_aux d₁ l = parse_header_aux d₂ l := by
  induction l with
  | nil => rfl
  | cons a rest ih =>
    simp only [parse_header_aux, h a (by simp),
      ih fun i hi => h i (List.mem_cons_of_mem a hi)]

/-- The state field of any successfully parsed frame is the 4-byte
little-endian integer at the frame's offset 0. -/
theorem parseFrame_state {d : Nat → Nat} {i : Nat} {e : DirectoryFrame}
    (h : parseFrame d i = some e) :
    e.state = intFromBytesLE (slice d i (i + 4)) := by
  simp only [parseFrame] at h
  split at h
  · split at h
    · exact absurd h (by simp)
    · cases h; rfl
  · cases h; rfl

/-- A parsed frame whose state is not FIRST carries only that state;
all other fields keep the dataclass defaults. -/
theorem parseFrame_not_first {d : Nat → Nat} {i : Nat} {e : DirectoryFrame}
    (h : parseFrame d i = some e) (hs : e.state ≠ FIRST) :
    e.file_size = 0 ∧ e.pointer = 0 ∧ e.file_name = none := by
  have hst := parseFrame_state h
  simp only [parseFrame] at h
  split at h
  · exact absurd (hst.trans (by assumption)) hs
  · cases h; exact ⟨rfl, rfl, rfl⟩

/-- Little-endian byte decoding is bounded by 256 to the byte count. -/
theorem intFromBytesLE_lt (l : List Nat) (h : ∀ b ∈ l, b < 256) :
    intFromBytesLE l < 256 ^ l.length := by
  induction l with
  | nil => simp [intFromBytesLE]
  | cons b rest ih =>
    have hb : b < 256 := h b (by simp)
    have hr := ih fun x hx => h x (List.mem_cons_of_mem b hx)
    simp only [intFromBytesLE, List.length_cons, pow_succ]
    calc b + 256 * intFromBytesLE rest
        ≤ 255 + 256 * (256 ^ rest.length - 1) := by
          have : intFromBytesLE rest ≤ 256 ^ rest.length - 1 := by omega
          omega
      _ < 256 ^ rest.length * 256 := by
          have : 1 ≤ 256 ^ rest.length := Nat.one_le_pow _ _ (by omega)
          omega

/-- The file size of any successfully parsed frame of a byte-valued buffer
fits in 3 bytes. -/
theorem parseFrame_size_le {d : Nat → Nat} {i : Nat} {e : DirectoryFrame}
    (hB : ∀ o, d o < 256) (h : parseFrame d i = some e) :
    e.file_size ≤ 16777215 := by
  simp only [parseFrame] at h
  split at h
  · split at h
    · exact absurd h (by simp)
    · cases h
      have hlen : (slice d (i + 4) (i + 7)).length = 3 := by
        simp [slice]
      have hbytes : ∀ b ∈ slice d (i + 4) (i + 7), b < 256 := by
        intro b hb
        obtain ⟨j, _, rfl⟩ := List.mem_map.mp hb
        exact hB _
      have := intFromBytesLE_lt _ hbytes
      rw [hlen] at this
      simpa using Nat.lt_succ_iff.mp (by simpa using this)
  · cases h
    simp

/-- A `getD` read inside a slice is a read of the underlying buffer. -/
theorem slice_getD {d : Nat → Nat} {a b j : Nat} (h : j < b - a) :
    (slice d a b).getD j 0 = d (a + j) := by
  simp [slice, List.getD_eq_getElem?_getD, List.getElem?_map, List.getElem?_range h]

end PsxCardReader

namespace PsxCardReader

/-- C4: for every 8192-byte header block, whenever parse_header returns a
directory it has exactly 15 entries, entry `j` (j = 0..14) being decoded by
the loop body from the 128-byte frame at byte offset 128×(j+1) (frame 0 is
skipped), and entry `j`'s state is the 4-byte little-endian integer at
offset 0 of that frame. -/
theorem c4_parse_directory_shape (d : Nat → Nat) (out : List DirectoryFrame)
    (h : parse_header d = some out) :
    out.length = 15 ∧
      ∀ j (hj' : j < out.length),
        parseFrame d (128 * (j + 1)) = some (out.get ⟨j, hj'⟩) ∧
        (out.get ⟨j, hj'⟩).state =
          intFromBytesLE
            (slice d (128 * (j + 1)) (128 * (j + 1) + 4)) := by
  rw [parse_header] at h
  obtain ⟨hlen, hget⟩ := parse_header_aux_eq_some _ _ h
  have hlen15 : out.length = 15 := by simpa using hlen
  refine ⟨hlen15, ?_⟩
  intro j hj'
  have hj : j < (List.range' FRAME_SIZE 15 FRAME_SIZE).length := by
    simpa using hj'.trans_le hlen15.le
  have hoff : (List.range' FRAME_SIZE 15 FRAME_SIZE).get ⟨j, hj⟩ =
      128 * (j + 1) := by
    simp only [List.get_eq_getElem, List.getElem_range', FRAME_SIZE]
    ring
  have hpf := hget j hj hj'
  rw [hoff] at hpf
  exact ⟨hpf, parseFrame_state hpf⟩

/-- C4 witness: parsing the all-zero header block returns a directory of
exactly 15 entries. -/
theorem c4_witness : zeroEntries.length = 15 :=
  (c4_parse_directory_shape allZero zeroEntries (by decide)).1

/-- C6: every parsed entry whose state is not 0x51 carries only that state:
file_size is the default 0, pointer the default 0 and file_name absent;
nothing is fabricated from the frame's remaining bytes and the parse still
succeeds (this is not an error). -/
theorem c6_non_first_defaults (d : Nat → Nat) (out : List DirectoryFrame)
    (h : parse_header d = some out) (j : Nat) (hj' : j < out.length)
    (hs : (out.get ⟨j, hj'⟩).state ≠ FIRST) :
    (out.get ⟨j, hj'⟩).file_size = 0 ∧ (out.get ⟨j, hj'⟩).pointer = 0 ∧
      (out.get ⟨j, hj'⟩).file_name = none := by
  rw [parse_header] at h
  obtain ⟨hlen, hget⟩ := parse_header_aux_eq_some _ _ h
  have hj : j < (List.range' FRAME_SIZE 15 FRAME_SIZE).length := by
    rw [← hlen]
    exact hj'
  exact parseFrame_not_first (hget j hj hj') hs

/-- C6 witness: entry 0 of the all-zero parse has state 0 ≠ 0x51 and all
other fields defaulted. -/
theorem c6_witness :
    (zeroEntries.get ⟨0, by decide⟩).file_size = 0 ∧
      (zeroEntries.get ⟨0, by decide⟩).pointer = 0 ∧
      (zeroEntries.get ⟨0, by decide⟩).file_name = none :=
  c6_non_first_defaults allZero zeroEntries (by decide) 0 (by decide)
    (by decide)

/-- C10: noninterference of the directory parser.  Two header blocks that
agree on bytes 128–2047 parse to equal results — the card-header frame
(bytes 0–127) and bytes 2048–8191 never influence any entry — and, more
strongly, entry `j` depends only on the bytes of its own frame at offset
128×(j+1). -/
theorem c10_noninterference (d₁ d₂ : Nat → Nat)
    (hagree : ∀ i, 128 ≤ i → i < 2048 → d₁ i = d₂ i) :
    parse_header d₁ = parse_header d₂ ∧
      ∀ j, j < 15 → ∀ e₁ e₂ : Nat → Nat,
        (∀ i, 128 * (j + 1) ≤ i → i < 128 * (j + 1) + 128 → e₁ i = e₂ i) →
        parseFrame e₁ (128 * (j + 1)) = parseFrame e₂ (128 * (j + 1)) := by
  constructor
  · rw [parse_header, parse_header]
    apply parse_header_aux_congr
    intro i hi
    obtain ⟨t, ht, rfl⟩ := List.mem_range'.mp hi
    apply parseFrame_congr
    intro o ho
    simp only [FRAME_SIZE] at ho ht ⊢
    exact hagree _ (by omega) (by omega)
  · intro j hj e₁ e₂ hag
    apply parseFrame_congr
    intro o ho
    simp only [FRAME_SIZE] at ho
    exact hag _ (by omega) (by omega)

/-- C10 witness: a block with garbage in its card-header frame parses the
same as the all-zero block, and frame 1 alone determines entry 0. -/
theorem c10_witness :
    parse_header c10block = parse_header allZero ∧
      parseFrame c10block (128 * (0 + 1)) = parseFrame allZero (128 * (0 + 1)) := by
  have hagree : ∀ i, 128 ≤ i → i < 2048 → c10block i = allZero i := by
    intro i h1 _
    simp only [c10block, allZero, if_neg (by omega : ¬ i < 128)]
  have h := c10_noninterference c10block allZero hagree
  exact ⟨h.1, h.2 0 (by omega) c10block allZero fun i h1 h2 => hagree i (by omega) (by omega)⟩

end PsxCardReader

namespace PsxCardReader

/-- C3 counterexample: the claim that the state-0x51 file sizes of any
parsed 8192-byte header block sum to at most 15×8192 bytes is false —
parse_header performs no size validation, so a block whose slot-1 frame
carries the 3-byte size 0xFFFFFF parses successfully with an allocated sum
of 16777215 > 122880. -/
theorem c3_counterexample :
    parse_header (read_block c3card 0) = some c3out ∧
      15 * 8192 < allocSum c3out := by
  constructor
  · decide
  · decide

/-- C3 (amended): for every byte-valued 131072-byte card image, the sum of
file_size over the state-0x51 entries of the parsed header block is at most
15 × 16777215, each size being a raw 3-byte little-endian field; the
15×8192-byte bound claimed of well-formed cards is not enforced by the
parser. -/
theorem c3_alloc_sum_bound (d : Nat → Nat) (hB : ∀ o, d o < 256)
    (out : List DirectoryFrame)
    (h : parse_header (read_block d 0) = some out) :
    allocSum out ≤ 15 * 16777215 := by
  rw [parse_header] at h
  obtain ⟨hlen, hget⟩ := parse_header_aux_eq_some _ _ h
  have hlen15 : out.length = 15 := by simpa using hlen
  have hB' : ∀ o, read_block d 0 o < 256 := fun o => hB _
  have hsize : ∀ e ∈ out, e.file_size ≤ 16777215 := by
    intro e he
    obtain ⟨⟨j, hj'⟩, rfl⟩ := List.mem_iff_get.mp he
    have hj : j < (List.range' FRAME_SIZE 15 FRAME_SIZE).length := by
      rw [← hlen]; exact hj'
    exact parseFrame_size_le hB' (hget j hj hj')
  unfold allocSum
  have hall : ∀ x ∈ (out.filter fun e => e.state == FIRST).map
      fun e => e.file_size, x ≤ 16777215 := by
    intro x hx
    obtain ⟨e, he, rfl⟩ := List.mem_map.mp hx
    exact hsize e (List.mem_of_mem_filter he)
  calc ((out.filter fun e => e.state == FIRST).map
        fun e => e.file_size).sum
      ≤ ((out.filter fun e => e.state == FIRST).map
        fun e => e.file_size).length * 16777215 := by
        simpa [smul_eq_mul] using
          List.sum_le_card_nsmul
            ((out.filter fun e => e.state == FIRST).map fun e => e.file_size)
            16777215 hall
    _ ≤ 15 * 16777215 := by
        apply Nat.mul_le_mul_right
        calc ((out.filter fun e => e.state == FIRST).map
              fun e => e.file_size).length
            = (out.filter fun e => e.state == FIRST).length := by
              simp
          _ ≤ out.length := List.length_filter_le _ _
          _ = 15 := hlen15

/-- C3 witness: the all-zero card image parses with allocated sum 0, within
the 3-byte bound. -/
theorem c3_witness : allocSum zeroEntries ≤ 15 * 16777215 :=
  c3_alloc_sum_bound allZero
    (fun o => (by decide : (0 : Nat) < 256)) zeroEntries (by decide)

/-- C1 counterexample: the double-byte decoding used for file names and
titles is strict, not lossy — the 21-byte name region `80 00 … 00` does not
decode (Python raises UnicodeDecodeError), a header block whose slot-1
frame is allocated with that name region makes parse_header fail, and a
card whose block-1 title region starts with byte 0x80 makes get_title
fail; the failures are propagated, not replaced. -/
theorem c1_counterexample :
    sjisDecode (0x80 :: List.replicate 20 0) = none ∧
      parse_header c1block = none ∧ get_title c1card 0 = none := by
  refine ⟨by decide, by decide, by decide⟩

/-- C1 (amended): text decoding is strict; whenever the 21-byte name region
of an allocated (state 0x51) frame is undecodable, the whole
parse_directory call fails, and whenever the 64-byte title region is
undecodable, decode_title fails — the UnicodeDecodeError propagates to the
caller instead of being replaced by a substitution character. -/
theorem c1_strict_decoding (d data : Nat → Nat) (j i : Nat) (hj : j < 15)
    (hstate : intFromBytesLE
      (slice d (128 * (j + 1)) (128 * (j + 1) + 4)) = FIRST)
    (hdec : sjisDecode
      (slice d (128 * (j + 1) + 10) (128 * (j + 1) + 31)) = none)
    (htitle : sjisDecode (slice (read_block data (i + 1)) 4 68) = none) :
    parse_header d = none ∧ get_title data i = none := by
  constructor
  · have hframe : parseFrame d (128 * (j + 1)) = none := by
      simp [parseFrame, hstate, hdec]
    rw [parse_header]
    apply parse_header_aux_eq_none _ (128 * (j + 1)) _ hframe
    apply List.mem_range'.mpr
    exact ⟨j, hj, by simp only [FRAME_SIZE]; ring⟩
  · simp only [get_title, htitle, Option.map_none']

/-- C1 witness: the strict-decoding theorem applied to the concrete block
and card with the malformed byte 0x80. -/
theorem c1_witness : parse_header c1block = none ∧ get_title c1card 0 = none :=
  c1_strict_decoding c1block c1card 0 0 (by decide) (by decide) (by decide)
    (by decide)

end PsxCardReader

namespace PsxCardReader

/-- C2 counterexample: the palette is not read at data-block offset 0x20.
On a block that is zero except at byte 0x60, the code's palette entry 0 is
(0xF8, 0, 0) while a palette read per the spec's offset-0x20 layout would
give (0, 0, 0). -/
theorem c2_counterexample :
    new_palette c2block 0 = (0xF8, 0, 0) ∧
      spec_palette_entry c2block 0 = (0, 0, 0) ∧
      new_palette c2block 0 ≠ spec_palette_entry c2block 0 := by
  refine ⟨by decide, by decide, by decide⟩

/-- C2 (amended): for every 8192-byte data block, decode_icon reads its
16-entry palette (16 entries of 2 bytes, 32 bytes total) starting at byte
offset 0x60 of the block, i.e. palette entry `k` is built from the two
bytes at offsets 0x60+2k and 0x61+2k. -/
theorem c2_palette_offset (block : Nat → Nat) (k : Nat) (hk : k < 16) :
    new_palette block k =
      convertColor (block (0x60 + 2 * k)) (block (0x60 + 2 * k + 1)) := by
  unfold new_palette icon_palette_bytes
  rw [slice_getD (by omega : 2 * k < 128 - 96),
    slice_getD (by omega : 2 * k + 1 < 128 - 96)]
  have h1 : 96 + (2 * k + 1) = 0x60 + 2 * k + 1 := by omega
  rw [h1]

/-- C2 witness: palette entry 0 of the concrete block `c2block` is built
from its bytes 0x60 and 0x61. -/
theorem c2_witness :
    new_palette c2block 0 =
      convertColor (c2block (0x60 + 2 * 0)) (c2block (0x60 + 2 * 0 + 1)) :=
  c2_palette_offset c2block 0 (by decide)

/-- C7: the number of raw bitmaps collected by get_icon is decided solely
by the icon_type byte at block offset 0x02 — fewer than 0x12 gives the one
bitmap at offset 0x80, exactly 0x12 adds the bitmap at 0x100, and any
value ≥ 0x13 (the clamp policy) also adds the bitmap at 0x180. -/
theorem c7_frame_count (block : Nat → Nat) :
    get_icon_frames block =
      (if 0x13 ≤ block 2 then
        [slice block 128 256, slice block 256 384, slice block 384 512]
      else if 0x12 ≤ block 2 then [slice block 128 256, slice block 256 384]
      else [slice block 128 256]) ∧
    (get_icon_frames block).length =
      (if 0x13 ≤ block 2 then 3 else if 0x12 ≤ block 2 then 2 else 1) := by
  by_cases h13 : 0x13 ≤ block 2
  · have h12 : 0x12 ≤ block 2 := by omega
    simp [get_icon_frames, h12, h13]
  · by_cases h12 : 0x12 ≤ block 2
    · simp [get_icon_frames, h12, h13]
    · simp [get_icon_frames, h12, h13]

/-- C8: palette conversion is bit-exact per the documented formula, the top
bit of the high byte (and all higher bits) being ignored; in particular the
packed bytes lo = 0x1F, hi = 0x00 decode to (0xF8, 0x00, 0x00). -/
theorem c8_palette_formula (lo hi : Nat) :
    convertColor lo hi =
      ((lo &&& 0x1F) <<< 3,
       ((hi &&& 0x3) <<< 6) ||| ((lo &&& 0xE0) >>> 2),
       (hi &&& 0x7C) <<< 1) ∧
    convertColor lo (hi &&& 0x7F) = convertColor lo hi ∧
    convertColor 0x1F 0x00 = (0xF8, 0x00, 0x00) := by
  refine ⟨rfl, ?_, by decide⟩
  unfold convertColor
  rw [Nat.and_assoc, Nat.and_assoc,
    (by decide : (0x7F : Nat) &&& 0x3 = 0x3),
    (by decide : (0x7F : Nat) &&& 0x7C = 0x7C)]

end PsxCardReader

namespace PsxCardReader

/-- Reading beside a list write is unaffected. -/
theorem getD_set_ne (l : List Nat) (i j a : Nat) (h : i ≠ j) :
    (l.set i a).getD j 0 = l.getD j 0 := by
  simp [List.getD_eq_getElem?_getD, List.getElem?_set_ne h]

/-- Reading an in-range list write returns the written value. -/
theorem getD_set_self (l : List Nat) (i a : Nat) (h : i < l.length) :
    (l.set i a).getD i 0 = a := by
  simp [List.getD_eq_getElem?_getD, List.getElem?_set_self h]

/-- set_pixel preserves the buffer length (Python writes in place). -/
theorem length_set_pixel (img : List Nat) (x y : Nat) (c : Nat × Nat × Nat) :
    (set_pixel img x y c).length = img.length := by
  simp [set_pixel]

/-- The pixel-pair step preserves the buffer length. -/
theorem length_draw_pair (pal : List (Nat × Nat × Nat)) (frame : List Nat)
    (y : Nat) (img : List Nat) (k : Nat) :
    (draw_pair pal frame y img k).length = img.length := by
  simp [draw_pair, length_set_pixel]

/-- Folding a length-preserving step preserves length. -/
theorem length_foldl {f : List Nat → Nat → List Nat}
    (hf : ∀ im b, (f im b).length = im.length) (l : List Nat) :
    ∀ im : List Nat, (l.foldl f im).length = im.length := by
  induction l with
  | nil => intro im; rfl
  | cons a t ih => intro im; rw [List.foldl_cons, ih, hf]

/-- The row step preserves the buffer length. -/
theorem length_draw_row (pal : List (Nat × Nat × Nat)) (frame : List Nat)
    (img : List Nat) (y : Nat) :
    (draw_row pal frame img y).length = img.length :=
  length_foldl (length_draw_pair pal frame y) _ img

/-- The rendered RGB buffer always has 16 × 16 × 3 = 768 bytes. -/
theorem length_draw_frame (pal : List (Nat × Nat × Nat)) (frame : List Nat) :
    (draw_frame pal frame).length = 768 := by
  unfold draw_frame
  rw [length_foldl (length_draw_row pal frame), List.length_replicate]

/-- set_pixel does not disturb offsets outside its pixel's 3 bytes. -/
theorem set_pixel_getD_ne (img : List Nat) (x y : Nat) (c : Nat × Nat × Nat)
    (o : Nat) (h0 : o ≠ (y * 16 + x) * 3) (h1 : o ≠ (y * 16 + x) * 3 + 1)
    (h2 : o ≠ (y * 16 + x) * 3 + 2) :
    (set_pixel img x y c).getD o 0 = img.getD o 0 := by
  unfold set_pixel
  rw [getD_set_ne _ _ _ _ (Ne.symm h2), getD_set_ne _ _ _ _ (Ne.symm h1),
    getD_set_ne _ _ _ _ (Ne.symm h0)]

/-- set_pixel stores the red byte at its pixel's base offset. -/
theorem set_pixel_getD_r (img : List Nat) (x y : Nat) (c : Nat × Nat × Nat)
    (h : (y * 16 + x) * 3 + 2 < img.length) :
    (set_pixel img x y c).getD ((y * 16 + x) * 3) 0 = c.1 := by
  unfold set_pixel
  rw [getD_set_ne _ _ _ _ (by omega), getD_set_ne _ _ _ _ (by omega),
    getD_set_self _ _ _ (by omega)]

/-- set_pixel stores the green byte at base offset + 1. -/
theorem set_pixel_getD_g (img : List Nat) (x y : Nat) (c : Nat × Nat × Nat)
    (h : (y * 16 + x) * 3 + 2 < img.length) :
    (set_pixel img x y c).getD ((y * 16 + x) * 3 + 1) 0 = c.2.1 := by
  unfold set_pixel
  rw [getD_set_ne _ _ _ _ (by omega),
    getD_set_self _ _ _ (by simp only [List.length_set]; omega)]

/-- set_pixel stores the blue byte at base offset + 2. -/
theorem set_pixel_getD_b (img : List Nat) (x y : Nat) (c : Nat × Nat × Nat)
    (h : (y * 16 + x) * 3 + 2 < img.length) :
    (set_pixel img x y c).getD ((y * 16 + x) * 3 + 2) 0 = c.2.2 := by
  unfold set_pixel
  rw [getD_set_self _ _ _ (by simp only [List.length_set]; omega)]

/-- The pixel-pair step does not disturb offsets outside its 6 bytes. -/
theorem draw_pair_getD_ne (pal : List (Nat × Nat × Nat)) (frame : List Nat)
    (y : Nat) (img : List Nat) (k : Nat) (o : Nat)
    (h : ∀ δ, δ < 6 → o ≠ (y * 16 + 2 * k) * 3 + δ) :
    (draw_pair pal frame y img k).getD o 0 = img.getD o 0 := by
  have e0 := h 0 (by omega)
  have e1 := h 1 (by omega)
  have e2 := h 2 (by omega)
  have e3 := h 3 (by omega)
  have e4 := h 4 (by omega)
  have e5 := h 5 (by omega)
  unfold draw_pair
  rw [set_pixel_getD_ne _ _ _ _ _ (by omega) (by omega) (by omega),
    set_pixel_getD_ne _ _ _ _ _ (by omega) (by omega) (by omega)]

/-- Folding pixel-pair steps over untouched columns leaves an offset
unchanged. -/
theorem foldl_draw_pair_getD_ne (pal : List (Nat × Nat × Nat))
    (frame : List Nat) (y : Nat) (ks : List Nat) :
    ∀ (img : List Nat) (o : Nat),
      (∀ k ∈ ks, ∀ δ, δ < 6 → o ≠ (y * 16 + 2 * k) * 3 + δ) →
      ((ks.foldl (draw_pair pal frame y) img).getD o 0 = img.getD o 0) := by
  induction ks with
  | nil => intro img o _; rfl
  | cons a t ih =>
    intro img o h
    rw [List.foldl_cons, ih _ _ fun k hk => h k (List.mem_cons_of_mem a hk)]
    exact draw_pair_getD_ne _ _ _ _ _ _ (h a (by simp))

/-- Transport `pairSpec` along agreement on the pair's six offsets. -/
theorem pairSpec_of_eq {pal : List (Nat × Nat × Nat)} {frame : List Nat}
    {y k : Nat} {l₁ l₂ : List Nat}
    (h : ∀ δ, δ < 6 → l₁.getD ((y * 16 + 2 * k) * 3 + δ) 0 =
      l₂.getD ((y * 16 + 2 * k) * 3 + δ) 0)
    (hp : pairSpec pal frame y k l₂) : pairSpec pal frame y k l₁ := by
  have e : (y * 16 + (2 * k + 1)) * 3 = (y * 16 + 2 * k) * 3 + 3 := by ring
  unfold pairSpec at hp ⊢
  rw [e] at hp ⊢
  obtain ⟨p0, p1, p2, p3, p4, p5⟩ := hp
  have q0 := (h 0 (by omega)).trans ((by simpa using p0))
  refine ⟨by simpa using q0, (h 1 (by omega)).trans p1, (h 2 (by omega)).trans p2,
    (h 3 (by omega)).trans p3, ?_, ?_⟩
  · have := (h 4 (by omega)).trans (by simpa using p4)
    simpa using this
  · have := (h 5 (by omega)).trans (by simpa using p5)
    simpa using this

/-- The pixel-pair step itself establishes `pairSpec` for its own pair. -/
theorem draw_pair_pairSpec (pal : List (Nat × Nat × Nat)) (frame : List Nat)
    (y : Nat) (img : List Nat) (k : Nat) (hlen : img.length = 768)
    (hy : y < 16) (hk : k < 8) :
    pairSpec pal frame y k (draw_pair pal frame y img k) := by
  have hand : frame.getD (y * 8 + k) 0 &&& 0xF = frame.getD (y * 8 + k) 0 % 16 := by
    simpa using Nat.and_pow_two_sub_one_eq_mod (frame.getD (y * 8 + k) 0) 4
  have hshift : frame.getD (y * 8 + k) 0 >>> 4 = frame.getD (y * 8 + k) 0 / 16 := by
    simpa using Nat.shiftRight_eq_div_pow (frame.getD (y * 8 + k) 0) 4
  have hin : (y * 16 + 2 * k) * 3 + 2 < img.length := by omega
  have hin' : (y * 16 + (2 * k + 1)) * 3 + 2 <
      (set_pixel img (2 * k) y
        (pal.getD (frame.getD (y * 8 + k) 0 % 16) (0, 0, 0))).length := by
    rw [length_set_pixel]
    omega
  unfold pairSpec draw_pair
  rw [hand, hshift]
  refine ⟨?_, ?_, ?_, ?_, ?_, ?_⟩
  · rw [set_pixel_getD_ne _ _ _ _ _ (by omega) (by omega) (by omega),
      set_pixel_getD_r _ _ _ _ hin]
  · rw [set_pixel_getD_ne _ _ _ _ _ (by omega) (by omega) (by omega),
      set_pixel_getD_g _ _ _ _ hin]
  · rw [set_pixel_getD_ne _ _ _ _ _ (by omega) (by omega) (by omega),
      set_pixel_getD_b _ _ _ _ hin]
  · rw [set_pixel_getD_r _ _ _ _ hin']
  · rw [set_pixel_getD_g _ _ _ _ hin']
  · rw [set_pixel_getD_b _ _ _ _ hin']

end PsxCardReader

namespace PsxCardReader

/-- After folding the pixel-pair step over the column suffix
`range' t m`, the pair at any column `k ≥ t` satisfies `pairSpec`:
its own iteration writes it and later iterations write disjoint offsets. -/
theorem foldl_draw_pair_spec (pal : List (Nat × Nat × Nat)) (frame : List Nat)
    (y : Nat) :
    ∀ (m t : Nat) (img : List Nat), t + m = 8 → img.length = 768 →
      ∀ k, t ≤ k → k < 8 → y < 16 →
        pairSpec pal frame y k
          ((List.range' t m).foldl (draw_pair pal frame y) img) := by
  intro m
  induction m with
  | zero => intro t img ht _ k hk1 hk2 _; omega
  | succ m ih =>
    intro t img ht hlen k hk1 hk2 hy
    rw [List.range'_succ, List.foldl_cons]
    by_cases hkt : t = k
    · subst hkt
      refine pairSpec_of_eq (fun δ hδ => ?_)
        (draw_pair_pairSpec pal frame y img t hlen hy hk2)
      apply foldl_draw_pair_getD_ne
      intro k' hk' δ' hδ'
      obtain ⟨i0, hi0, rfl⟩ := List.mem_range'.mp hk'
      omega
    · exact ih (t + 1) _ (by omega)
        (by rw [length_draw_pair]; exact hlen) k (by omega) hk2 hy

/-- A whole row render does not disturb offsets outside that row. -/
theorem draw_row_getD_ne (pal : List (Nat × Nat × Nat)) (frame : List Nat)
    (img : List Nat) (y' : Nat) (o : Nat)
    (h : ∀ k', k' < 8 → ∀ δ, δ < 6 → o ≠ (y' * 16 + 2 * k') * 3 + δ) :
    (draw_row pal frame img y').getD o 0 = img.getD o 0 := by
  unfold draw_row
  apply foldl_draw_pair_getD_ne
  intro k hk δ hδ
  exact h k (List.mem_range.mp hk) δ hδ

/-- Folding row renders over untouched rows leaves an offset unchanged. -/
theorem foldl_draw_row_getD_ne (pal : List (Nat × Nat × Nat))
    (frame : List Nat) (ys : List Nat) :
    ∀ (img : List Nat) (o : Nat),
      (∀ y' ∈ ys, ∀ k', k' < 8 → ∀ δ, δ < 6 →
        o ≠ (y' * 16 + 2 * k') * 3 + δ) →
      ((ys.foldl (draw_row pal frame) img).getD o 0 = img.getD o 0) := by
  induction ys with
  | nil => intro img o _; rfl
  | cons a t ih =>
    intro img o h
    rw [List.foldl_cons, ih _ _ fun y' hy' => h y' (List.mem_cons_of_mem a hy')]
    exact draw_row_getD_ne _ _ _ _ _ (h a (by simp))

/-- A single row render establishes `pairSpec` for every pair of its row. -/
theorem draw_row_pairSpec (pal : List (Nat × Nat × Nat)) (frame : List Nat)
    (img : List Nat) (y : Nat) (hlen : img.length = 768) (hy : y < 16)
    (k : Nat) (hk : k < 8) :
    pairSpec pal frame y k (draw_row pal frame img y) := by
  unfold draw_row
  rw [List.range_eq_range']
  exact foldl_draw_pair_spec pal frame y 8 0 img rfl hlen k (by omega) hk hy

/-- After folding row renders over the row suffix `range' t m`, the pair
at any row `y ≥ t` satisfies `pairSpec`. -/
theorem foldl_draw_row_spec (pal : List (Nat × Nat × Nat)) (frame : List Nat) :
    ∀ (m t : Nat) (img : List Nat), t + m = 16 → img.length = 768 →
      ∀ y k, t ≤ y → y < 16 → k < 8 →
        pairSpec pal frame y k
          ((List.range' t m).foldl (draw_row pal frame) img) := by
  intro m
  induction m with
  | zero => intro t img ht _ y k hy1 hy2 _; omega
  | succ m ih =>
    intro t img ht hlen y k hy1 hy2 hk
    rw [List.range'_succ, List.foldl_cons]
    by_cases hyt : t = y
    · subst hyt
      refine pairSpec_of_eq (fun δ hδ => ?_)
        (draw_row_pairSpec pal frame img t hlen hy2 k hk)
      apply foldl_draw_row_getD_ne
      intro y' hy' k' hk' δ' hδ'
      obtain ⟨i0, hi0, rfl⟩ := List.mem_range'.mp hy'
      omega
    · exact ih (t + 1) _ (by omega)
        (by rw [length_draw_row]; exact hlen) y k (by omega) hy2 hk

end PsxCardReader

namespace PsxCardReader

/-- C9: for every raw icon bitmap and palette, the rendered frame is a
row-major 16×16×3-byte buffer in which each source byte `frame[y*8+k]`
supplies two pixels — the low nibble indexes the palette for the left pixel
(columns 2k) and the high nibble for the right pixel (column 2k+1); in
particular a source byte 0x21 decodes to left pixel = palette[1] and right
pixel = palette[2]. -/
theorem c9_bitmap_decode (pal : List (Nat × Nat × Nat)) (frame : List Nat)
    (y k : Nat) (hy : y < 16) (hk : k < 8) :
    (draw_frame pal frame).length = 768 ∧
    pairSpec pal frame y k (draw_frame pal frame) ∧
    (frame.getD (y * 8 + k) 0 = 0x21 →
      (draw_frame pal frame).getD ((y * 16 + 2 * k) * 3) 0 =
          (pal.getD 1 (0, 0, 0)).1 ∧
      (draw_frame pal frame).getD ((y * 16 + 2 * k) * 3 + 1) 0 =
          (pal.getD 1 (0, 0, 0)).2.1 ∧
      (draw_frame pal frame).getD ((y * 16 + 2 * k) * 3 + 2) 0 =
          (pal.getD 1 (0, 0, 0)).2.2 ∧
      (draw_frame pal frame).getD ((y * 16 + (2 * k + 1)) * 3) 0 =
          (pal.getD 2 (0, 0, 0)).1 ∧
      (draw_frame pal frame).getD ((y * 16 + (2 * k + 1)) * 3 + 1) 0 =
          (pal.getD 2 (0, 0, 0)).2.1 ∧
      (draw_frame pal frame).getD ((y * 16 + (2 * k + 1)) * 3 + 2) 0 =
          (pal.getD 2 (0, 0, 0)).2.2) := by
  have hspec : pairSpec pal frame y k (draw_frame pal frame) := by
    unfold draw_frame
    rw [List.range_eq_range']
    exact foldl_draw_row_spec pal frame 16 0 (List.replicate 768 0) rfl
      (by rw [List.length_replicate]) y k (by omega) hy hk
  refine ⟨length_draw_frame pal frame, hspec, fun hb => ?_⟩
  obtain ⟨p0, p1, p2, p3, p4, p5⟩ := hspec
  rw [hb] at p0 p1 p2 p3 p4 p5
  rw [(by norm_num : (0x21 : Nat) % 16 = 1)] at p0 p1 p2
  rw [(by norm_num : (0x21 : Nat) / 16 = 2)] at p3 p4 p5
  exact ⟨p0, p1, p2, p3, p4, p5⟩

/-- C9 witness: on the all-0x21 bitmap with the concrete palette, the
top-left pixel pair renders palette entry 1 then palette entry 2. -/
theorem c9_witness :
    (draw_frame c9pal c9frame).getD 0 0 = (c9pal.getD 1 (0, 0, 0)).1 ∧
    (draw_frame c9pal c9frame).getD 3 0 = (c9pal.getD 2 (0, 0, 0)).1 := by
  have h := (c9_bitmap_decode c9pal c9frame 0 0 (by decide) (by decide)).2.2
    (by decide)
  exact ⟨by simpa using h.1, by simpa using h.2.2.2.1⟩

end PsxCardReader

namespace PsxCardReader

/-- Decoding a single-byte ASCII code point. -/
theorem sjisDecode_ascii (b : Nat) (hb : b < 0x80) (rest : List Nat) :
    sjisDecode (b :: rest) =
      (sjisDecode rest).map (fun cs => Char.ofNat b :: cs) := by
  rw [sjisDecode.eq_def]
  simp [hb]

/-- Decoding a single-byte halfwidth-katakana code point. -/
theorem sjisDecode_kata (b : Nat) (hb1 : 0xA1 ≤ b) (hb2 : b ≤ 0xDF)
    (rest : List Nat) :
    sjisDecode (b :: rest) =
      (sjisDecode rest).map (fun cs => Char.ofNat (0xFEC0 + b) :: cs) := by
  have h80 : ¬ b < 0x80 := by omega
  rw [sjisDecode.eq_def]
  simp [h80, hb1, hb2]

/-- Decoding a double-byte pair that the table maps. -/
theorem sjisDecode_pair_eq (b1 b2 : Nat) (c : Char)
    (hlead : sjisIsLead b1 = true) (hp : sjisPair b1 b2 = some c)
    (rest : List Nat) :
    sjisDecode (b1 :: b2 :: rest) =
      (sjisDecode rest).map (fun cs => c :: cs) := by
  have hb : (0x81 ≤ b1 ∧ b1 ≤ 0x9F) ∨ (0xE0 ≤ b1 ∧ b1 ≤ 0xEA) := by
    simpa [sjisIsLead] using hlead
  have h80 : ¬ b1 < 0x80 := by omega
  have hkata : (0xA1 ≤ b1 && b1 ≤ 0xDF) = false := by
    simp only [Bool.and_eq_false_iff, decide_eq_false_iff_not]
    omega
  rw [sjisDecode.eq_def]
  simp [h80, hkata, hlead, hp]

/-- Decoding the bytes of one encoded character prepends that character. -/
theorem sjisEncodeChar_decode (c : Char) (l : List Nat)
    (h : sjisEncodeChar c = some l) (rest : List Nat) :
    sjisDecode (l ++ rest) = (sjisDecode rest).map (fun cs => c :: cs) := by
  unfold sjisEncodeChar at h
  split_ifs at h with h1 h2 h3 h4 h5
  · injection h with h
    subst h
    rw [List.cons_append, List.nil_append, sjisDecode_ascii _ h1,
      Char.ofNat_toNat]
  · have hk : 0xFF61 ≤ c.toNat ∧ c.toNat ≤ 0xFF9F := by simpa using h2
    injection h with h
    subst h
    rw [List.cons_append, List.nil_append,
      sjisDecode_kata _ (by omega) (by omega),
      (by omega : 0xFEC0 + (c.toNat - 0xFEC0) = c.toNat), Char.ofNat_toNat]
  · subst h3
    injection h with h
    subst h
    exact sjisDecode_pair_eq _ _ _ (by decide) (by decide) rest
  · subst h4
    injection h with h
    subst h
    exact sjisDecode_pair_eq _ _ _ (by decide) (by decide) rest
  · subst h5
    injection h with h
    subst h
    exact sjisDecode_pair_eq _ _ _ (by decide) (by decide) rest

/-- Decoding an encoded string prepends that string. -/
theorem sjisEncode_decode (N : List Char) :
    ∀ (bs rest : List Nat), sjisEncode N = some bs →
      sjisDecode (bs ++ rest) = (sjisDecode rest).map (fun cs => N ++ cs) := by
  induction N with
  | nil =>
    intro bs rest h
    injection h with h
    subst h
    simp
  | cons c cs ih =>
    intro bs rest h
    cases hc : sjisEncodeChar c with
    | none =>
      simp only [sjisEncode, hc] at h
      exact Option.noConfusion h
    | some b =>
      cases hcs : sjisEncode cs with
      | none =>
        simp only [sjisEncode, hc, hcs] at h
        exact Option.noConfusion h
      | some bs' =>
        simp only [sjisEncode, hc, hcs, Option.some.injEq] at h
        subst h
        rw [List.append_assoc, sjisEncodeChar_decode c b hc,
          ih bs' rest hcs, Option.map_map]
        rfl

/-- Null padding decodes to null characters. -/
theorem sjisDecode_replicate_zero (m : Nat) :
    sjisDecode (List.replicate m 0) = some (List.replicate m nullChar) := by
  induction m with
  | zero => rfl
  | succ m ih =>
    rw [List.replicate_succ, sjisDecode_ascii 0 (by omega) _, ih,
      List.replicate_succ]
    rfl

end PsxCardReader

namespace PsxCardReader

/-- Null-stripping a null-free string followed by null padding recovers
the string. -/
theorem stripNulls_append_replicate (N : List Char) (m : Nat)
    (h : ∀ c ∈ N, c ≠ nullChar) :
    stripNulls (N ++ List.replicate m nullChar) = N := by
  have hdropRep : (List.replicate m nullChar).dropWhile
      (fun c => c = nullChar) = [] := by
    apply List.dropWhile_eq_nil_iff.mpr
    intro x hx
    simp [List.eq_of_mem_replicate hx]
  cases N with
  | nil =>
    rw [List.nil_append]
    unfold stripNulls
    rw [hdropRep]
    rfl
  | cons a t =>
    have ha : a ≠ nullChar := h a (by simp)
    unfold stripNulls
    rw [List.cons_append, List.dropWhile_cons, if_neg (by simp [ha])]
    rw [← List.cons_append, List.reverse_append, List.reverse_replicate]
    rw [List.dropWhile_append, hdropRep]
    have hrevDrop : (a :: t).reverse.dropWhile (fun c => c = nullChar) =
        (a :: t).reverse := by
      cases hrev : (a :: t).reverse with
      | nil => exact absurd hrev (by simp)
      | cons b rb =>
        have hb : b ∈ a :: t := by
          rw [← List.mem_reverse, hrev]
          simp
        rw [List.dropWhile_cons, if_neg (by simp [h b hb])]
    simp only [List.isEmpty_nil, if_true]
    rw [hrevDrop, List.reverse_reverse]

end PsxCardReader

namespace PsxCardReader

/-- The name region of the synthetic frame is the encoded bytes followed
by null padding. -/
theorem synthFrame_name_slice (S : Nat) (bs : List Nat)
    (hlen : bs.length ≤ 21) :
    slice (synthFrame S bs) (0 + 10) (0 + 31) =
      bs ++ List.replicate (21 - bs.length) 0 := by
  apply List.ext_getElem
  · simp [slice]
    omega
  · intro i h1 h2
    have hi : i < 21 := by simpa [slice] using h1
    simp only [slice, List.getElem_map, List.getElem_range]
    have hf : synthFrame S bs (0 + 10 + i) = bs.getD i 0 := by
      unfold synthFrame
      rw [if_neg (by omega), if_neg (by omega), if_neg (by omega),
        if_neg (by omega), if_pos (by omega)]
      congr 1
      omega
    rw [hf]
    by_cases hib : i < bs.length
    · rw [List.getElem_append_left hib, List.getD_eq_getElem?_getD,
        List.getElem?_eq_getElem hib]
      rfl
    · rw [List.getElem_append_right (by omega), List.getElem_replicate,
        List.getD_eq_getElem?_getD, List.getElem?_eq_none (by omega)]
      rfl

/-- C5 counterexample: the round-trip claim fails for the file name
consisting of a single null character — its synthetic frame is
indistinguishable from pure padding, so the parsed file_name is the empty
string, not N. -/
theorem c5_counterexample :
    sjisEncode [nullChar] = some [0] ∧
    parseFrame (synthFrame 0 [0]) 0 =
      some { state := FIRST, file_size := 0, pointer := 0,
             file_name := some [] } ∧
    parseFrame (synthFrame 0 [0]) 0 ≠
      some { state := FIRST, file_size := 0, pointer := 0,
             file_name := some [nullChar] } := by
  refine ⟨by decide, by decide, by decide⟩

/-- C5 (amended): round-trip for allocated entries with null-free names.
For every size S ≤ 16777215 and every file name N containing no null
character whose encoding `bs` fits in 21 bytes, the synthetic 128-byte
frame with 4-byte LE state 0x51, S in little-endian at bytes 0x04–0x06 and
`bs` null-padded at offset 0x0A decodes to an entry with file_size = S and
file_name = N after null-trim.  (For names with leading or trailing nulls
the trim also removes those characters, so the original claim fails.) -/
theorem c5_roundtrip (S : Nat) (N : List Char) (bs : List Nat)
    (hS : S ≤ 16777215) (henc : sjisEncode N = some bs)
    (hlen : bs.length ≤ 21) (hnull : ∀ c ∈ N, c ≠ nullChar) :
    parseFrame (synthFrame S bs) 0 =
      some { state := FIRST, file_size := S, pointer := 0,
             file_name := some N } := by
  have hstate : intFromBytesLE (slice (synthFrame S bs) 0 (0 + 4)) = FIRST := by
    have : slice (synthFrame S bs) 0 (0 + 4) = [0x51, 0, 0, 0] := by
      simp [slice, synthFrame, List.range_succ]
    rw [this]
    rfl
  have hsize : intFromBytesLE (slice (synthFrame S bs) (0 + 4) (0 + 7)) = S := by
    have : slice (synthFrame S bs) (0 + 4) (0 + 7) =
        [S % 256, S / 256 % 256, S / 65536 % 256] := by
      simp [slice, synthFrame, List.range_succ]
    rw [this]
    simp only [intFromBytesLE]
    omega
  have hdec : sjisDecode (slice (synthFrame S bs) (0 + 10) (0 + 31)) =
      some (N ++ List.replicate (21 - bs.length) nullChar) := by
    rw [synthFrame_name_slice S bs hlen, sjisEncode_decode N bs _ henc,
      sjisDecode_replicate_zero]
    rfl
  have hptr : synthFrame S bs (0 + 8) = 0 := by
    unfold synthFrame
    rw [if_neg (by omega), if_neg (by omega), if_neg (by omega),
      if_neg (by omega), if_neg (by omega)]
  simp only [parseFrame, hstate, hsize, hdec, hptr, if_pos rfl]
  rw [stripNulls_append_replicate N _ hnull]
  simp

/-- C5 witness: the round trip at size 3 and name "A". -/
theorem c5_witness :
    parseFrame (synthFrame 3 [65]) 0 =
      some { state := FIRST, file_size := 3, pointer := 0,
             file_name := some [Char.ofNat 65] } :=
  c5_roundtrip 3 [Char.ofNat 65] [65] (by omega) (by decide) (by decide)
    (by decide)

end PsxCardReader
